import Mathlib

/-!
Verification of the autodev-codebase core against its specification.

The development shallowly embeds two parts of the repository:

* the tag-capture processor and the file-level definition listing of
  `src/tree-sitter/index.ts` (the unnamed source file `part_000`):
  `processCaptures`, `parseSourceCodeDefinitionsForFile`,
  `parseSourceCodeForDefinitionsTopLevel` and `separateFiles`;
* the configuration restart controller of
  `src/code-index/config-manager.ts`: `isConfigured`,
  `_hasVectorDimensionChanged` and `doesConfigChangeRequireRestart`.

External collaborators (file system, path utilities, workspace ignore
rules, tree-sitter parsing, the markdown heading parser and the static
embedding-model table, none of which are in the repository sources)
are passed as explicit parameters or oracle functions.
-/

namespace Autodev

/-! ## Tag-capture processor (`part_000`, `processCaptures`) -/

/-- `DEFAULT_MIN_COMPONENT_LINES_VALUE` from the source (line 16). -/
def DEFAULT_MIN_COMPONENT_LINES_VALUE : Nat := 4

/-- The supported-extension list (source lines 35-97), with the leading dot
already applied as the final `.map((e) => "." + e)` does. -/
def extensions : List String :=
  [".tla", ".js", ".jsx", ".ts", ".vue", ".tsx", ".py", ".rs", ".go",
   ".c", ".h", ".cpp", ".hpp", ".cs", ".rb", ".java", ".php", ".swift",
   ".sol", ".kt", ".kts", ".ex", ".exs", ".el", ".html", ".htm", ".md",
   ".markdown", ".json", ".css", ".rdl", ".ml", ".mli", ".lua", ".scala",
   ".toml", ".zig", ".elm", ".ejs", ".erb"]

/-- JS `s.includes(pat)` on the character list of `s`: some suffix of `s`
starts with `pat`.  (`"".includes("")` is `true`, as in JS.) -/
def strIncludesAux (pat : List Char) : List Char → Bool
  | [] => pat.isPrefixOf []
  | c :: t => pat.isPrefixOf (c :: t) || strIncludesAux pat t

/-- JS `s.includes(pat)`. -/
def strIncludes (s pat : String) : Bool := strIncludesAux pat.toList s.toList

/-- A word character for the regex metacharacter `\b`. -/
def isWordChar (c : Char) : Bool :=
  ('a' ≤ c && c ≤ 'z') || ('A' ≤ c && c ≤ 'Z') || ('0' ≤ c && c ≤ '9') || c = '_'

/-- An uppercase ASCII letter, for the regex class `[^A-Z]`. -/
def isUpperAZ (c : Char) : Bool := 'A' ≤ c && c ≤ 'Z'

/-- The element-name alternation of the `HTML_ELEMENTS` regex
(source line 283), with `h[1-6]` expanded. -/
def htmlElementNames : List String :=
  ["div", "span", "button", "input", "h1", "h2", "h3", "h4", "h5", "h6",
   "p", "a", "img", "ul", "li", "form"]

/-- Match `(?:div|span|...|form)\b` at the head of `cs`. -/
def matchesElementAt (cs : List Char) : Bool :=
  htmlElementNames.any (fun nm =>
    nm.toList.isPrefixOf cs &&
    (match cs.drop nm.toList.length with
     | [] => true
     | c :: _ => !isWordChar c))

/-- Match `\/?(?:div|...)\b` at the head of `cs` (an element name never
starts with `/`, so the optional slash is consumed when present). -/
def matchesAfterLt : List Char → Bool
  | [] => false
  | c :: rest => if c = '/' then matchesElementAt rest else matchesElementAt (c :: rest)

/-- Backtracking match of `^[^A-Z]*<` followed by `matchesAfterLt`:
the star may stop at any position whose preceding characters are all
non-uppercase. -/
def htmlTestAux : List Char → Bool
  | [] => false
  | c :: rest => (c = '<' && matchesAfterLt rest) || (!isUpperAZ c && htmlTestAux rest)

/-- `HTML_ELEMENTS.test(s)` for the regex
`^[^A-Z]*<\/?(?:div|span|button|input|h[1-6]|p|a|img|ul|li|form)\b`
(source line 283). -/
def htmlElementTest (s : String) : Bool := htmlTestAux s.toList

/-- `needsHtmlFiltering` (source line 277). -/
def needsHtmlFiltering (language : String) : Bool := ["jsx", "tsx"].contains language

/-- A whitespace character for JS `String.prototype.trim` (the ASCII cases;
the claims never exercise exotic Unicode whitespace). -/
def isJsSpace (c : Char) : Bool := c = ' ' || c = '\t' || c = '\n' || c = '\r'

/-- JS `line.trim()`: strip whitespace from both ends. -/
def jsTrim (s : String) : String :=
  ⟨((s.toList.dropWhile isJsSpace).reverse.dropWhile isJsSpace).reverse⟩

/-- JS `s.toLowerCase()` for the ASCII range used by extensions. -/
def jsToLowerCase (s : String) : String := ⟨s.toList.map Char.toLower⟩

/-- `isNotHtmlElement` (source lines 280-286): outside JSX/TSX it is
constantly true; otherwise the trimmed line must not match the regex. -/
def isNotHtmlElement (language : String) (line : String) : Bool :=
  if !needsHtmlFiltering language then true
  else !htmlElementTest (jsTrim line)

/-- The parent of a capture node, as used by `processCaptures`:
its start and end rows and the end row of its last child (if any). -/
structure TSParent where
  startRow : Nat
  endRow : Nat
  lastChildEndRow : Option Nat
deriving DecidableEq

/-- A tree-sitter node as consumed by `processCaptures`: `startPosition.row`,
`endPosition.row`, `text`, and the parent node. -/
structure TSNode where
  startRow : Nat
  endRow : Nat
  text : String
  parent : Option TSParent
deriving DecidableEq

/-- A query capture `{node, name}`. -/
structure TSCapture where
  name : String
  node : TSNode
deriving DecidableEq

/-- One emitted definition record; the source renders it as
`(startLine+1) ++ "--" ++ (endLine+1) ++ " | " ++ header ++ "\n"`. -/
structure DefRecord where
  startLine : Nat
  endLine : Nat
  header : String
deriving DecidableEq

/-- The dedup key `lineKey` of the source (line 326): the pair of rows.
The source renders it as the string `startLine ++ "-" ++ endLine`, which is
injective on pairs of naturals. -/
def recKey (r : DefRecord) : Nat × Nat := (r.startLine, r.endLine)

/-- JS `lines[i]`: past the end of the array the template literal renders
`undefined`.  (The source would in fact throw on `.trim()` there; every
claim below only evaluates in-range rows.) -/
def lineAt (lines : List String) (i : Nat) : String := lines.getD i "undefined"

/-- Insert keeping earlier elements with equal start rows in front, as JS
stable `Array.sort` does. -/
def insertCap (c : TSCapture) : List TSCapture → List TSCapture
  | [] => [c]
  | d :: l => if c.node.startRow ≤ d.node.startRow then c :: d :: l else d :: insertCap c l

/-- `captures.sort((a, b) => a.node.startPosition.row - b.node.startPosition.row)`
(source line 296); JS sort is stable, and so is this insertion sort. -/
def sortCaptures : List TSCapture → List TSCapture
  | [] => []
  | c :: l => insertCap c (sortCaptures l)

/-- The processor state: the `processedLines` set (as a list of keys) and the
emitted records (the source accumulates the formatted string instead; the
string is recovered below by `renderRecords`). -/
abbrev ProcState := List (Nat × Nat) × List DefRecord

/-- One emission site of the source: `formattedOutput += ...; processedLines.add(lineKey)`.
The header is always the verbatim `lines[startLine]` of the emitted range. -/
def emitRecord (lines : List String) (st : ProcState) (key : Nat × Nat) : ProcState :=
  (key :: st.1, st.2 ++ [⟨key.1, key.2, lineAt lines key.1⟩])

/-- The body of the `captures.forEach` loop of `processCaptures`
(source lines 302-368), acting on one capture. -/
def processCapture (lines : List String) (language : String) (minLines : Nat)
    (st : ProcState) (cap : TSCapture) : ProcState :=
  if !(strIncludes cap.name "definition" || strIncludes cap.name "name") then st
  else
    match (if strIncludes cap.name "name"
           then cap.node.parent.map (fun p => (p.startRow, p.endRow))
           else some (cap.node.startRow, cap.node.endRow)) with
    | none => st
    | some key =>
      if ((key.2 : Int) - (key.1 : Int) + 1) < (minLines : Int) then st
      else if key ∈ st.1 then st
      else if strIncludes cap.name "name.definition" then
        if key ∉ st.1 ∧ cap.node.text ≠ "" then emitRecord lines st key else st
      else if isNotHtmlElement language (jsTrim (lineAt lines key.1)) then
        match cap.node.parent with
        | none => emitRecord lines st key
        | some par =>
          match par.lastChildEndRow with
          | none => emitRecord lines st key
          | some contextEnd =>
            if (minLines : Int) ≤ (contextEnd : Int) - (par.startRow : Int) + 1 then
              if (par.startRow, contextEnd) ∈ (emitRecord lines st key).1 then
                emitRecord lines st key
              else emitRecord lines (emitRecord lines st key) (par.startRow, contextEnd)
            else emitRecord lines st key
      else st

/-- The records emitted by `processCaptures`, in emission order: the
captures are sorted by node start row (stably), then folded through the
loop body with an empty `processedLines` set. -/
def processCapturesRecords (captures : List TSCapture) (lines : List String)
    (language : String) (minLines : Nat) : List DefRecord :=
  ((sortCaptures captures).foldl (processCapture lines language minLines) ([], [])).2

/-- The line the source appends per record (lines 343, 349, 362):
`(startLine+1) ++ "--" ++ (endLine+1) ++ " | " ++ lines[startLine] ++ "\n"`. -/
def formatDefRecord (r : DefRecord) : String :=
  toString (r.startLine + 1) ++ "--" ++ toString (r.endLine + 1) ++ " | " ++ r.header ++ "\n"

/-- The accumulated `formattedOutput` string. -/
def renderRecords (records : List DefRecord) : String :=
  records.foldl (fun acc r => acc ++ formatDefRecord r) ""

/-- `processCaptures` (source lines 275-375): `null` for an empty capture
list and for an empty formatted output, else the formatted output. -/
def processCaptures (captures : List TSCapture) (lines : List String)
    (language : String) (minLines : Nat) : Option String :=
  if captures.isEmpty then none
  else
    let out := renderRecords (processCapturesRecords captures lines language minLines)
    if out.length > 0 then some out else none

/-! ## File-level and directory-level listings (`part_000`) -/

/-- The literal returned when the file does not exist (source line 108). -/
def fileNotFoundMessage : String :=
  "This file does not exist or you do not have permission to access it."

/-- The literal returned when the directory does not exist (source line 164). -/
def dirNotFoundMessage : String :=
  "This directory does not exist or you do not have permission to access it."

/-- The literal returned when no file produced definitions (source line 233). -/
def noDefinitionsMessage : String := "No source code definitions found."

/-- `parseFile` (source lines 385-423).  The file system, parser loading and
tree-sitter run are external: `ignored` is `workspace.shouldIgnore(filePath)`,
`hasParser` whether `languageParsers[extLang]` held a parser and query,
`parseOk` whether parsing and querying succeeded (the catch branch returns
null), and `captures`/`fileLines` are the query captures and the decoded
content split on newlines. -/
def parseFile (ignored hasParser parseOk : Bool) (filePath : String)
    (captures : List TSCapture) (fileLines : List String)
    (extLang : String) (minLines : Nat) : Option String :=
  if ignored then none
  else if !hasParser then some ("Unsupported file type: " ++ filePath)
  else if !parseOk then none
  else processCaptures captures fileLines extLang minLines

/-- `parseSourceCodeDefinitionsForFile` (source lines 101-154).
`fileExists` is `fileSystem.exists(filePath)`, `ext` the `pathUtils.extname`
result (the model applies the `.toLowerCase()`), `basename` the
`pathUtils.basename` result; `captures` stands for the parse result of the
file, used by whichever of the markdown or tree-sitter path runs. -/
def parseSourceCodeDefinitionsForFile (fileExists : Bool) (ext : String)
    (ignored hasParser parseOk : Bool) (filePath basename : String)
    (captures : List TSCapture) (fileLines : List String) (minLines : Nat) :
    Option String :=
  if !fileExists then some fileNotFoundMessage
  else if !(extensions.contains (jsToLowerCase ext)) then none
  else if jsToLowerCase ext = ".md" ∨ jsToLowerCase ext = ".markdown" then
    if ignored then none
    else
      match processCaptures captures fileLines "markdown" minLines with
      | some defs => some ("# " ++ basename ++ "\n" ++ defs)
      | none => none
  else
    match parseFile ignored hasParser parseOk filePath captures fileLines
        ((jsToLowerCase ext).drop 1) minLines with
    | some defs => some ("# " ++ basename ++ "\n" ++ defs)
    | none => none

/-- `separateFiles` (source lines 236-240): keep the first 50 files whose
(raw, not lowercased) extension is supported; the rest are the remainder.
`extnameOf` is the external `pathUtils.extname`. -/
def separateFiles (allFiles : List String) (extnameOf : String → String) :
    List String × List String :=
  let filesToParse := (allFiles.filter (fun f => extensions.contains (extnameOf f))).take 50
  let remainingFiles := allFiles.filter (fun f => !(filesToParse.contains f))
  (filesToParse, remainingFiles)

/-- The supported files of a directory listing, in order. -/
def supportedOf (allFiles : List String) (extnameOf : String → String) : List String :=
  allFiles.filter (fun f => extensions.contains (extnameOf f))

/-- The `result += "# " + relativePath + "\n" + definitions + "\n"` step of
the directory walk (source lines 217, 229); a `none` parse result appends
nothing. -/
def appendEntry (relativeOf : String → String) (acc : String) (f : String)
    (res : Option String) : String :=
  match res with
  | some defs => acc ++ "# " ++ relativeOf f ++ "\n" ++ defs ++ "\n"
  | none => acc

/-- `parseSourceCodeForDefinitionsTopLevel` (source lines 157-234).
`mdResult f` stands for the markdown pipeline on file `f` (read, decode,
`parseMarkdown`, `processCaptures`; `none` also covers the caught error
branch), and `tsResult f` for `parseFile` on `f`; both are external I/O
summarized as oracles.  `relativeOf` is `pathUtils.relative(dirPath, ·)`. -/
def parseSourceCodeForDefinitionsTopLevel (dirExists : Bool) (allFiles : List String)
    (extnameOf : String → String) (shouldIgnore : String → Bool)
    (relativeOf : String → String) (mdResult tsResult : String → Option String) :
    String :=
  if !dirExists then dirNotFoundMessage
  else
    let filesToParse := (separateFiles allFiles extnameOf).1
    let allowedFilesToParse := filesToParse.filter (fun f => !(shouldIgnore f))
    let isMd := fun f => jsToLowerCase (extnameOf f) = ".md" || jsToLowerCase (extnameOf f) = ".markdown"
    let markdownFiles := allowedFilesToParse.filter (fun f => isMd f)
    let otherFiles := allowedFilesToParse.filter (fun f => !(isMd f))
    let afterMd := markdownFiles.foldl (fun acc f =>
      if shouldIgnore f then acc
      else appendEntry relativeOf acc f (mdResult f)) ""
    let result := otherFiles.foldl (fun acc f =>
      appendEntry relativeOf acc f (tsResult f)) afterMd
    if result = "" then noDefinitionsMessage else result

/-! ## Configuration restart controller (`config-manager.ts`) -/

/-- `EmbedderProvider`. -/
inductive EmbedderProvider where
  | openai
  | ollama
  | openaiCompatible
deriving DecidableEq

/-- The slice of `ApiHandlerOptions` the controller reads: `apiKey` for
openai and `ollamaBaseUrl` for ollama (optional fields in TS). -/
structure ApiHandlerOptions where
  apiKey : Option String := none
  ollamaBaseUrl : Option String := none
deriving DecidableEq

/-- `openAiCompatibleOptions`: `{baseUrl, apiKey, modelDimension?}`. -/
structure OpenAiCompatibleOptions where
  baseUrl : String
  apiKey : String
  modelDimension : Option Nat
deriving DecidableEq

/-- The private instance state of `CodeIndexConfigManager` that the restart
decision reads (source lines 19-27). -/
structure ManagerState where
  isEnabled : Bool
  embedderProvider : EmbedderProvider
  modelId : Option String
  openAiOptions : Option ApiHandlerOptions
  ollamaOptions : Option ApiHandlerOptions
  openAiCompatibleOptions : Option OpenAiCompatibleOptions
  qdrantUrl : Option String
  qdrantApiKey : Option String
deriving DecidableEq

/-- `ConfigSnapshot` as built by `loadConfiguration` (source lines 110-122). -/
structure ConfigSnapshot where
  enabled : Bool
  configured : Bool
  embedderProvider : EmbedderProvider
  modelId : Option String
  openAiKey : String
  ollamaBaseUrl : String
  openAiCompatibleBaseUrl : String
  openAiCompatibleApiKey : String
  openAiCompatibleModelDimension : Option Nat
  qdrantUrl : String
  qdrantApiKey : String
deriving DecidableEq

/-- Modelled from the spec: the static embedding-model table of
`src/shared/embeddingModels.ts` (`getDefaultModelId`, `getModelDimension`)
is not part of the repository sources; the spec (4.E, 4.I) only says the
dimension is looked up by `(provider, modelId)` in a static table and may be
unresolvable.  The table is therefore kept abstract. -/
structure EmbeddingModels where
  getDefaultModelId : EmbedderProvider → String
  getModelDimension : EmbedderProvider → String → Option Nat

/-- JS truthiness of an optional string: present and non-empty. -/
def truthy (o : Option String) : Bool :=
  match o with
  | some s => !s.isEmpty
  | none => false

/-- `isConfigured` (source lines 150-169). -/
def isConfigured (s : ManagerState) : Bool :=
  match s.embedderProvider with
  | .openai => truthy (s.openAiOptions.bind (fun o => o.apiKey)) && truthy s.qdrantUrl
  | .ollama => truthy (s.ollamaOptions.bind (fun o => o.ollamaBaseUrl)) && truthy s.qdrantUrl
  | .openaiCompatible =>
      truthy (s.openAiCompatibleOptions.map (fun o => o.baseUrl)) &&
      truthy (s.openAiCompatibleOptions.map (fun o => o.apiKey)) &&
      truthy s.qdrantUrl

/-- `_hasVectorDimensionChanged` (source lines 259-280). -/
def hasVectorDimensionChanged (models : EmbeddingModels) (s : ManagerState)
    (prevProvider : EmbedderProvider) (prevModelId : Option String) : Bool :=
  let currentModelId := s.modelId.getD (models.getDefaultModelId s.embedderProvider)
  let resolvedPrevModelId := prevModelId.getD (models.getDefaultModelId prevProvider)
  if prevProvider = s.embedderProvider ∧ resolvedPrevModelId = currentModelId then false
  else
    match models.getModelDimension prevProvider resolvedPrevModelId,
          models.getModelDimension s.embedderProvider currentModelId with
    | some prevDim, some currentDim => prevDim != currentDim
    | _, _ => true

/-- The snapshot `loadConfiguration` captures from the current state
(source lines 110-122). -/
def snapshotOfCurrent (s : ManagerState) : ConfigSnapshot where
  enabled := s.isEnabled
  configured := isConfigured s
  embedderProvider := s.embedderProvider
  modelId := s.modelId
  openAiKey := (s.openAiOptions.bind (fun o => o.apiKey)).getD ""
  ollamaBaseUrl := (s.ollamaOptions.bind (fun o => o.ollamaBaseUrl)).getD ""
  openAiCompatibleBaseUrl := (s.openAiCompatibleOptions.map (fun o => o.baseUrl)).getD ""
  openAiCompatibleApiKey := (s.openAiCompatibleOptions.map (fun o => o.apiKey)).getD ""
  openAiCompatibleModelDimension := s.openAiCompatibleOptions.bind (fun o => o.modelDimension)
  qdrantUrl := s.qdrantUrl.getD ""
  qdrantApiKey := s.qdrantApiKey.getD ""

/-- `doesConfigChangeRequireRestart` (source lines 174-254), mirroring the
early-return chain.  The `?? `-defaults of lines 178-188 are identities here
because the snapshot fields are non-optional in `ConfigSnapshot`. -/
def doesConfigChangeRequireRestart (models : EmbeddingModels) (s : ManagerState)
    (prev : ConfigSnapshot) : Bool :=
  let nowConfigured := isConfigured s
  if (!prev.enabled || !prev.configured) && s.isEnabled && nowConfigured then true
  else if !prev.enabled && !s.isEnabled then false
  else if !prev.configured && !nowConfigured then false
  else if s.isEnabled || prev.enabled then
    if prev.embedderProvider ≠ s.embedderProvider then true
    else if hasVectorDimensionChanged models s prev.embedderProvider prev.modelId then true
    else if s.embedderProvider = .openai ∧
        prev.openAiKey ≠ (s.openAiOptions.bind (fun o => o.apiKey)).getD "" then true
    else if s.embedderProvider = .ollama ∧
        prev.ollamaBaseUrl ≠ (s.ollamaOptions.bind (fun o => o.ollamaBaseUrl)).getD "" then true
    else if s.embedderProvider = .openaiCompatible ∧
        (prev.openAiCompatibleBaseUrl ≠ (s.openAiCompatibleOptions.map (fun o => o.baseUrl)).getD "" ∨
         prev.openAiCompatibleApiKey ≠ (s.openAiCompatibleOptions.map (fun o => o.apiKey)).getD "" ∨
         prev.openAiCompatibleModelDimension ≠ s.openAiCompatibleOptions.bind (fun o => o.modelDimension)) then true
    else if prev.qdrantUrl ≠ s.qdrantUrl.getD "" ∨ prev.qdrantApiKey ≠ s.qdrantApiKey.getD "" then true
    else false
  else false

/-! ## Helper lemmas about the processor -/

/-- The sort key relation of `sortCaptures`. -/
def RowLE (a b : TSCapture) : Prop := a.node.startRow ≤ b.node.startRow

theorem mem_insertCap {a c : TSCapture} :
    ∀ {l : List TSCapture}, a ∈ insertCap c l ↔ a = c ∨ a ∈ l := by
  intro l
  induction l with
  | nil => simp [insertCap]
  | cons d l ih =>
    simp only [insertCap]
    split
    · simp [List.mem_cons]
    · simp [List.mem_cons, ih]
      tauto

theorem sorted_insertCap {c : TSCapture} :
    ∀ {l : List TSCapture}, l.Pairwise RowLE → (insertCap c l).Pairwise RowLE := by
  intro l
  induction l with
  | nil => intro _; simp [insertCap, RowLE]
  | cons d l ih =>
    intro hs
    rw [List.pairwise_cons] at hs
    simp only [insertCap]
    split
    · rename_i hle
      rw [List.pairwise_cons]
      refine ⟨?_, List.pairwise_cons.mpr hs⟩
      intro b hb
      rcases List.mem_cons.mp hb with hb | hb
      · subst hb; exact hle
      · exact Nat.le_trans hle (hs.1 b hb)
    · rename_i hgt
      rw [List.pairwise_cons]
      refine ⟨?_, ih hs.2⟩
      intro b hb
      rcases mem_insertCap.mp hb with hb | hb
      · subst hb
        exact Nat.le_of_lt (Nat.lt_of_not_le hgt)
      · exact hs.1 b hb

theorem sorted_sortCaptures : ∀ l : List TSCapture, (sortCaptures l).Pairwise RowLE := by
  intro l
  induction l with
  | nil => simp [sortCaptures]
  | cons c l ih => exact sorted_insertCap ih

theorem mem_sortCaptures {a : TSCapture} :
    ∀ {l : List TSCapture}, a ∈ sortCaptures l ↔ a ∈ l := by
  intro l
  induction l with
  | nil => simp [sortCaptures]
  | cons c l ih =>
    simp only [sortCaptures]
    rw [mem_insertCap, ih, List.mem_cons]

theorem foldlInv {α β : Type} (f : β → α → β) (P : β → Prop)
    (hf : ∀ b a, P b → P (f b a)) :
    ∀ (l : List α) (b : β), P b → P (l.foldl f b) := by
  intro l
  induction l with
  | nil => intro b h; exact h
  | cons a l ih => intro b h; exact ih _ (hf b a h)

/-- The dedup invariant: every emitted key is in the `processedLines` set and
the emitted keys are pairwise distinct. -/
def RecInv (st : ProcState) : Prop :=
  (∀ r ∈ st.2, recKey r ∈ st.1) ∧ (st.2.map recKey).Nodup

theorem recKey_emit (k : Nat × Nat) (h : String) :
    recKey ⟨k.1, k.2, h⟩ = k := rfl

theorem recInv_emit {lines : List String} {st : ProcState} {key : Nat × Nat}
    (h : RecInv st) (hk : key ∉ st.1) : RecInv (emitRecord lines st key) := by
  obtain ⟨h1, h2⟩ := h
  constructor
  · intro r hr
    rcases List.mem_append.mp hr with hr | hr
    · exact List.mem_cons_of_mem _ (h1 r hr)
    · rcases List.mem_singleton.mp hr with rfl
      exact List.mem_cons_self _ _
  · have hmap : (emitRecord lines st key).2.map recKey = st.2.map recKey ++ [key] := by
      simp [emitRecord, recKey_emit]
    rw [hmap]
    rw [List.nodup_append]
    refine ⟨h2, List.nodup_singleton _, ?_⟩
    intro x hx hx2
    rcases List.mem_singleton.mp hx2 with rfl
    rcases List.mem_map.mp hx with ⟨r, hr, hrk⟩
    exact hk (hrk ▸ h1 r hr)

theorem processCapture_recInv {lines : List String} {language : String} {minLines : Nat}
    {st : ProcState} {cap : TSCapture} (h : RecInv st) :
    RecInv (processCapture lines language minLines st cap) := by
  unfold processCapture
  split
  · exact h
  split
  · exact h
  split
  · exact h
  split
  · exact h
  rename_i key heq hspan hmem
  split
  · split
    · exact recInv_emit h hmem
    · exact h
  split
  · split
    · exact recInv_emit h hmem
    rename_i par
    split
    · exact recInv_emit h hmem
    rename_i contextEnd
    split
    · split
      · exact recInv_emit h hmem
      · rename_i hmem2
        exact recInv_emit (recInv_emit h hmem) hmem2
    · exact recInv_emit h hmem
  · exact h

theorem recInv_processCapturesRecords (captures : List TSCapture) (lines : List String)
    (language : String) (minLines : Nat) :
    RecInv ((sortCaptures captures).foldl (processCapture lines language minLines) ([], [])) :=
  foldlInv _ RecInv (fun _ _ hb => processCapture_recInv hb) _ _ ⟨by simp, by simp⟩

/-- The per-record guarantees of every emission site: the header is the
line at the record's start row, and the span passed the minimum-lines
guard. -/
def GoodRec (lines : List String) (minLines : Nat) (r : DefRecord) : Prop :=
  r.header = lineAt lines r.startLine ∧
  (minLines : Int) ≤ (r.endLine : Int) - (r.startLine : Int) + 1

theorem goodRec_emit {lines : List String} {minLines : Nat} {st : ProcState}
    {key : Nat × Nat} (h : ∀ r ∈ st.2, GoodRec lines minLines r)
    (hspan : (minLines : Int) ≤ (key.2 : Int) - (key.1 : Int) + 1) :
    ∀ r ∈ (emitRecord lines st key).2, GoodRec lines minLines r := by
  intro r hr
  rcases List.mem_append.mp hr with hr | hr
  · exact h r hr
  · rcases List.mem_singleton.mp hr with rfl
    exact ⟨rfl, hspan⟩

theorem processCapture_good {lines : List String} {language : String} {minLines : Nat}
    {st : ProcState} {cap : TSCapture}
    (h : ∀ r ∈ st.2, GoodRec lines minLines r) :
    ∀ r ∈ (processCapture lines language minLines st cap).2, GoodRec lines minLines r := by
  unfold processCapture
  split
  · exact h
  split
  · exact h
  split
  · exact h
  split
  · exact h
  rename_i key heq hspan hmem
  have hspan2 : (minLines : Int) ≤ (key.2 : Int) - (key.1 : Int) + 1 := Int.not_lt.mp hspan
  split
  · split
    · exact goodRec_emit h hspan2
    · exact h
  split
  · split
    · exact goodRec_emit h hspan2
    rename_i par
    split
    · exact goodRec_emit h hspan2
    rename_i contextEnd
    split
    · rename_i hctx
      split
      · exact goodRec_emit h hspan2
      · exact goodRec_emit (goodRec_emit h hspan2) hctx
    · exact goodRec_emit h hspan2
  · exact h

theorem good_processCapturesRecords (captures : List TSCapture) (lines : List String)
    (language : String) (minLines : Nat) :
    ∀ r ∈ processCapturesRecords captures lines language minLines,
      GoodRec lines minLines r := by
  have := foldlInv (processCapture lines language minLines)
    (fun st => ∀ r ∈ st.2, GoodRec lines minLines r)
    (fun _ _ hb => processCapture_good hb) (sortCaptures captures) ([], []) (by simp)
  exact this

/-- With a parentless capture node, a loop step either emits nothing or
appends exactly the record of the capture node itself. -/
theorem processCapture_parentless {lines : List String} {language : String}
    {minLines : Nat} {st : ProcState} {cap : TSCapture}
    (hp : cap.node.parent = none) :
    (processCapture lines language minLines st cap).2 = st.2 ∨
    (processCapture lines language minLines st cap).2
      = st.2 ++ [⟨cap.node.startRow, cap.node.endRow, lineAt lines cap.node.startRow⟩] := by
  unfold processCapture
  rw [hp]
  split
  · exact Or.inl rfl
  split
  · exact Or.inl rfl
  rename_i key heq
  have hkey : key = (cap.node.startRow, cap.node.endRow) := by
    by_cases hn : strIncludes cap.name "name" = true
    · rw [if_pos hn] at heq
      simp at heq
    · rw [if_neg hn] at heq
      exact (Option.some.injEq _ _ ▸ heq).symm
  subst hkey
  split
  · exact Or.inl rfl
  split
  · exact Or.inl rfl
  split
  · split
    · exact Or.inr rfl
    · exact Or.inl rfl
  split
  · exact Or.inr rfl
  · exact Or.inl rfl

theorem foldl_parentless_sorted {lines : List String} {language : String} {minLines : Nat} :
    ∀ (caps : List TSCapture) (st : ProcState),
      caps.Pairwise RowLE →
      (∀ c ∈ caps, c.node.parent = none) →
      (st.2.map DefRecord.startLine).Pairwise (· ≤ ·) →
      (∀ r ∈ st.2, ∀ c ∈ caps, r.startLine ≤ c.node.startRow) →
      ((caps.foldl (processCapture lines language minLines) st).2.map
          DefRecord.startLine).Pairwise (· ≤ ·) := by
  intro caps
  induction caps with
  | nil =>
    intro st _ _ h3 _
    simpa using h3
  | cons c caps ih =>
    intro st hsort hpar h3 h4
    simp only [List.foldl_cons]
    have hsort' := List.pairwise_cons.mp hsort
    have hc : c.node.parent = none := hpar c (List.mem_cons_self _ _)
    have hpar' : ∀ x ∈ caps, x.node.parent = none :=
      fun x hx => hpar x (List.mem_cons_of_mem _ hx)
    rcases @processCapture_parentless lines language minLines st c hc
      with heq | heq
    · apply ih _ hsort'.2 hpar'
      · rw [heq]; exact h3
      · intro r hr c2 hc2
        rw [heq] at hr
        exact h4 r hr c2 (List.mem_cons_of_mem _ hc2)
    · apply ih _ hsort'.2 hpar'
      · rw [heq]
        rw [List.map_append, List.pairwise_append]
        refine ⟨h3, by simp, ?_⟩
        intro a ha b hb
        rcases List.mem_map.mp ha with ⟨r, hr, rfl⟩
        rcases List.mem_map.mp hb with ⟨r2, hr2, rfl⟩
        rcases List.mem_singleton.mp hr2 with rfl
        exact h4 r hr c (List.mem_cons_self _ _)
      · intro r hr c2 hc2
        rw [heq] at hr
        rcases List.mem_append.mp hr with hr | hr
        · exact h4 r hr c2 (List.mem_cons_of_mem _ hc2)
        · rcases List.mem_singleton.mp hr with rfl
          exact hsort'.1 c2 hc2

theorem isPrefixOf_trans : ∀ {p1 p2 l : List Char},
    p1.isPrefixOf p2 = true → p2.isPrefixOf l = true → p1.isPrefixOf l = true := by
  intro p1
  induction p1 with
  | nil => intro p2 l _ _; simp
  | cons a as ih =>
    intro p2 l h1 h2
    cases p2 with
    | nil => simp at h1
    | cons b bs =>
      cases l with
      | nil => simp at h2
      | cons c cs =>
        rw [List.isPrefixOf_cons₂] at h1 h2 ⊢
        simp only [Bool.and_eq_true, beq_iff_eq] at h1 h2 ⊢
        exact ⟨h1.1.trans h2.1, ih h1.2 h2.2⟩

/-- A shorter pattern in a longer one: if `p1` starts `p2` then any string
containing `p2` contains `p1`. -/
theorem strIncludesAux_mono {p1 p2 : List Char} (hp : p1.isPrefixOf p2 = true) :
    ∀ {l : List Char}, strIncludesAux p2 l = true → strIncludesAux p1 l = true := by
  intro l
  induction l with
  | nil =>
    intro h
    unfold strIncludesAux at h ⊢
    exact isPrefixOf_trans hp h
  | cons c t ih =>
    intro h
    unfold strIncludesAux at h ⊢
    rcases Bool.or_eq_true _ _ |>.mp h with h | h
    · exact Bool.or_eq_true _ _ |>.mpr (Or.inl (isPrefixOf_trans hp h))
    · exact Bool.or_eq_true _ _ |>.mpr (Or.inr (ih h))

theorem strIncludes_mono {s p1 p2 : String} (hp : p1.toList.isPrefixOf p2.toList = true)
    (h : strIncludes s p2 = true) : strIncludes s p1 = true :=
  strIncludesAux_mono hp h

theorem not_includes_name_definition {s : String}
    (h : strIncludes s "name" = false) : strIncludes s "name.definition" = false := by
  by_contra hne
  rw [Bool.not_eq_false] at hne
  have : strIncludes s "name" = true :=
    strIncludes_mono (by decide) hne
  rw [h] at this
  exact Bool.false_ne_true this

theorem renderAux_len_le : ∀ (l : List DefRecord) (acc : String),
    acc.length ≤ (l.foldl (fun a r => a ++ formatDefRecord r) acc).length := by
  intro l
  induction l with
  | nil => intro acc; exact Nat.le_refl _
  | cons r l ih =>
    intro acc
    refine Nat.le_trans ?_ (ih (acc ++ formatDefRecord r))
    rw [String.length_append]
    exact Nat.le_add_right _ _

theorem formatDefRecord_len_pos (r : DefRecord) : 0 < (formatDefRecord r).length := by
  unfold formatDefRecord
  rw [String.length_append]
  have : ("\n").length = 1 := rfl
  omega

theorem renderRecords_len_pos {records : List DefRecord} (h : records ≠ []) :
    0 < (renderRecords records).length := by
  cases records with
  | nil => exact absurd rfl h
  | cons r l =>
    unfold renderRecords
    rw [List.foldl_cons]
    refine Nat.lt_of_lt_of_le ?_ (renderAux_len_le l _)
    rw [String.length_append]
    have := formatDefRecord_len_pos r
    omega

theorem processCapturesRecords_nil (lines : List String) (language : String)
    (minLines : Nat) : processCapturesRecords [] lines language minLines = [] := rfl

theorem processCaptures_eq_some {captures : List TSCapture} {lines : List String}
    {language : String} {minLines : Nat}
    (h : processCapturesRecords captures lines language minLines ≠ []) :
    processCaptures captures lines language minLines
      = some (renderRecords (processCapturesRecords captures lines language minLines)) := by
  unfold processCaptures
  have hc : captures.isEmpty = false := by
    cases captures with
    | nil => exact absurd (processCapturesRecords_nil lines language minLines) h
    | cons _ _ => rfl
  rw [hc]
  simp only [Bool.false_eq_true, if_false]
  rw [if_pos (renderRecords_len_pos h)]

/-! ## Claim theorems: tag-capture processor -/

/-- C5: for every list of captures processed for one file, the processor
emits at most one record per `(startLine, endLine)` pair — the emitted
dedup keys are pairwise distinct. -/
theorem c5_dedup_by_line_range (captures : List TSCapture) (lines : List String)
    (language : String) (minLines : Nat) :
    ((processCapturesRecords captures lines language minLines).map recKey).Nodup :=
  (recInv_processCapturesRecords captures lines language minLines).2

/-- C2 (amended): every record emitted by the tag-capture processor spans at
least `minLines` lines (`endLine - startLine + 1 ≥ minLines`), for every
language — markdown included; captures with a smaller span are discarded. -/
theorem c2_min_component_lines (captures : List TSCapture) (lines : List String)
    (language : String) (minLines : Nat) :
    ∀ r ∈ processCapturesRecords captures lines language minLines,
      (minLines : Int) ≤ (r.endLine : Int) - (r.startLine : Int) + 1 :=
  fun r hr => (good_processCapturesRecords captures lines language minLines r hr).2

/-- C2 counterexample: a markdown capture spanning 2 lines (< the default 4)
is discarded by `processCaptures`, so markdown is not excluded from the
lower bound. -/
theorem c2_markdown_not_exempt :
    processCapturesRecords [⟨"definition.heading", ⟨0, 1, "# Title", none⟩⟩]
        ["# Title", "text"] "markdown" DEFAULT_MIN_COMPONENT_LINES_VALUE = [] ∧
      ((1 : Int) - (0 : Int) + 1 < (DEFAULT_MIN_COMPONENT_LINES_VALUE : Int)) := by
  decide

/-- C2 witness: a 5-line definition record is emitted and satisfies the
bound at the default minimum of 4. -/
theorem c2_min_component_lines_witness :
    (⟨0, 4, "function foo()"⟩ : DefRecord) ∈
      processCapturesRecords [⟨"definition.function", ⟨0, 4, "", none⟩⟩]
        ["function foo()", "a", "b", "c", "end"] "ts" DEFAULT_MIN_COMPONENT_LINES_VALUE ∧
    ((DEFAULT_MIN_COMPONENT_LINES_VALUE : Int) ≤ (4 : Int) - (0 : Int) + 1) :=
  ⟨by decide,
   c2_min_component_lines [⟨"definition.function", ⟨0, 4, "", none⟩⟩]
     ["function foo()", "a", "b", "c", "end"] "ts" DEFAULT_MIN_COMPONENT_LINES_VALUE
     ⟨0, 4, "function foo()"⟩ (by decide)⟩

/-- C6 (amended): when no capture node has a parent, the processor emits
records with non-decreasing `startLine` (the stable sort is by the capture
node start row only; equal start rows keep input order, there is no
endLine-descending tie-break). -/
theorem c6_emitted_order (captures : List TSCapture) (lines : List String)
    (language : String) (minLines : Nat)
    (hpar : ∀ c ∈ captures, c.node.parent = none) :
    List.Sorted (· ≤ ·)
      ((processCapturesRecords captures lines language minLines).map DefRecord.startLine) := by
  unfold processCapturesRecords
  exact foldl_parentless_sorted (sortCaptures captures) ([], [])
    (sorted_sortCaptures captures)
    (fun c hc => hpar c (mem_sortCaptures.mp hc)) (by simp) (by simp)

/-- C6 counterexample: two definition captures sharing `startLine = 0` with
end lines 4 and 9, given in that order, are emitted smaller-end first —
the claimed endLine-descending tie-break does not hold. -/
theorem c6_no_endline_tiebreak :
    ((processCapturesRecords
        [⟨"definition.a", ⟨0, 4, "", none⟩⟩, ⟨"definition.b", ⟨0, 9, "", none⟩⟩]
        (List.replicate 12 "line") "ts" DEFAULT_MIN_COMPONENT_LINES_VALUE).map recKey
      = [(0, 4), (0, 9)]) ∧
    ¬ List.Pairwise (fun a b : Nat × Nat => a.1 < b.1 ∨ (a.1 = b.1 ∧ b.2 < a.2))
        ((processCapturesRecords
          [⟨"definition.a", ⟨0, 4, "", none⟩⟩, ⟨"definition.b", ⟨0, 9, "", none⟩⟩]
          (List.replicate 12 "line") "ts" DEFAULT_MIN_COMPONENT_LINES_VALUE).map recKey) := by
  decide

/-- C6 witness: two parentless captures at rows 0 and 6 are emitted with
sorted start lines. -/
theorem c6_emitted_order_witness :
    (∀ c ∈ ([⟨"definition.a", ⟨0, 4, "", none⟩⟩, ⟨"definition.b", ⟨6, 10, "", none⟩⟩] :
        List TSCapture), c.node.parent = none) ∧
    List.Sorted (· ≤ ·)
      ((processCapturesRecords
          [⟨"definition.a", ⟨0, 4, "", none⟩⟩, ⟨"definition.b", ⟨6, 10, "", none⟩⟩]
          (List.replicate 12 "line") "ts" DEFAULT_MIN_COMPONENT_LINES_VALUE).map
        DefRecord.startLine) :=
  ⟨by decide,
   c6_emitted_order
     [⟨"definition.a", ⟨0, 4, "", none⟩⟩, ⟨"definition.b", ⟨6, 10, "", none⟩⟩]
     (List.replicate 12 "line") "ts" DEFAULT_MIN_COMPONENT_LINES_VALUE (by decide)⟩

/-- C3 (amended): the HTML-element filter drops a surviving non-name
capture whose definition first line matches the regex (first conjunct,
via `isNotHtmlElement ... = false`, which forces a JSX/TSX language);
for languages other than jsx/tsx it never drops anything (second
conjunct); but a `name.definition` capture is emitted regardless of the
filter (third conjunct). -/
theorem c3_html_element_filter :
    (∀ (cap : TSCapture) (lines : List String) (language : String) (minLines : Nat),
      strIncludes cap.name "definition" = true →
      strIncludes cap.name "name" = false →
      isNotHtmlElement language (jsTrim (lineAt lines cap.node.startRow)) = false →
      processCapturesRecords [cap] lines language minLines = [])
    ∧ (∀ language line, needsHtmlFiltering language = false →
        isNotHtmlElement language line = true)
    ∧ (∀ (cap : TSCapture) (p : TSParent) (lines : List String) (language : String)
        (minLines : Nat),
      strIncludes cap.name "name.definition" = true →
      cap.node.parent = some p →
      (minLines : Int) ≤ (p.endRow : Int) - (p.startRow : Int) + 1 →
      cap.node.text ≠ "" →
      processCapturesRecords [cap] lines language minLines
        = [⟨p.startRow, p.endRow, lineAt lines p.startRow⟩]) := by
  refine ⟨?_, ?_, ?_⟩
  · intro cap lines language minLines hdef hname hfilter
    have hnd := not_includes_name_definition hname
    unfold processCapturesRecords
    show (processCapture lines language minLines ([], []) cap).2 = []
    unfold processCapture
    rw [hdef, hname, hnd]
    simp only [Bool.true_or, Bool.not_true, Bool.false_eq_true, if_false]
    split
    · rfl
    · rw [hfilter]
      simp
  · intro language line h
    unfold isNotHtmlElement
    rw [h]
    rfl
  · intro cap p lines language minLines hnd hp hspan htext
    have hname : strIncludes cap.name "name" = true :=
      strIncludes_mono (by decide) hnd
    unfold processCapturesRecords
    show (processCapture lines language minLines ([], []) cap).2 =
      [⟨p.startRow, p.endRow, lineAt lines p.startRow⟩]
    unfold processCapture
    simp only [hname, hnd, hp, Bool.or_true, Bool.not_true, Bool.false_eq_true,
      if_false, if_true, Option.map_some']
    rw [if_neg (Int.not_lt.mpr hspan)]
    rw [if_neg (List.not_mem_nil _)]
    rw [if_pos ⟨List.not_mem_nil _, htext⟩]
    rfl

/-- C3 counterexample: in a `.tsx` file a `name.definition` capture whose
definition first line is an HTML `<div ...>` line (matching the regex) is
still emitted — the claim that the filter drops all captures including
`name.definition` ones is false. -/
theorem c3_name_definition_not_filtered :
    processCapturesRecords
        [⟨"name.definition.component", ⟨2, 2, "Foo", some ⟨0, 4, none⟩⟩⟩]
        ["<div className=\"x\">", "a", "b", "c", "d"] "tsx"
        DEFAULT_MIN_COMPONENT_LINES_VALUE
      = [⟨0, 4, "<div className=\"x\">"⟩] ∧
    htmlElementTest (jsTrim "<div className=\"x\">") = true := by
  decide

/-- C3 witness: a plain definition capture in a `.tsx` file whose first
line is `<div className="x">` is dropped. -/
theorem c3_html_element_filter_witness :
    (strIncludes "definition.component" "definition" = true) ∧
    (strIncludes "definition.component" "name" = false) ∧
    (isNotHtmlElement "tsx"
      (jsTrim (lineAt ["<div className=\"x\">", "a", "b", "c", "d"] 0)) = false) ∧
    processCapturesRecords
        [⟨"definition.component", ⟨0, 4, "", none⟩⟩]
        ["<div className=\"x\">", "a", "b", "c", "d"] "tsx"
        DEFAULT_MIN_COMPONENT_LINES_VALUE = [] :=
  ⟨by decide, by decide, by decide,
   c3_html_element_filter.1 ⟨"definition.component", ⟨0, 4, "", none⟩⟩
     ["<div className=\"x\">", "a", "b", "c", "d"] "tsx"
     DEFAULT_MIN_COMPONENT_LINES_VALUE (by decide) (by decide) (by decide)⟩

/-! ## Claim theorems: file-level listing -/

/-- C7: a supported file that yields at least one definition produces
exactly the header line `# basename` followed, per definition record, by
one line `(startLine+1)--(endLine+1) | header` (see `formatDefRecord` and
`renderRecords`), for the tree-sitter path (first conjunct) and the
markdown path (second conjunct); and every emitted header is the verbatim
source line at the record's start (third conjunct). -/
theorem c7_definitions_format :
    (∀ (ext filePath basename : String) (captures : List TSCapture)
        (fileLines : List String) (minLines : Nat),
      extensions.contains (jsToLowerCase ext) = true →
      ¬(jsToLowerCase ext = ".md" ∨ jsToLowerCase ext = ".markdown") →
      processCapturesRecords captures fileLines ((jsToLowerCase ext).drop 1) minLines ≠ [] →
      parseSourceCodeDefinitionsForFile true ext false true true filePath basename
          captures fileLines minLines
        = some ("# " ++ basename ++ "\n" ++
            renderRecords (processCapturesRecords captures fileLines
              ((jsToLowerCase ext).drop 1) minLines)))
    ∧ (∀ (ext filePath basename : String) (hasParser parseOk : Bool)
        (captures : List TSCapture) (fileLines : List String) (minLines : Nat),
      (jsToLowerCase ext = ".md" ∨ jsToLowerCase ext = ".markdown") →
      processCapturesRecords captures fileLines "markdown" minLines ≠ [] →
      parseSourceCodeDefinitionsForFile true ext false hasParser parseOk filePath
          basename captures fileLines minLines
        = some ("# " ++ basename ++ "\n" ++
            renderRecords (processCapturesRecords captures fileLines "markdown" minLines)))
    ∧ (∀ (captures : List TSCapture) (lines : List String) (language : String)
        (minLines : Nat) (r : DefRecord),
      r ∈ processCapturesRecords captures lines language minLines →
      ∀ h : r.startLine < lines.length, lines.get ⟨r.startLine, h⟩ = r.header) := by
  refine ⟨?_, ?_, ?_⟩
  · intro ext filePath basename captures fileLines minLines hext hmd hne
    unfold parseSourceCodeDefinitionsForFile
    rw [hext]
    simp only [Bool.not_true, Bool.false_eq_true, if_false, Bool.not_false, if_true]
    rw [if_neg hmd]
    unfold parseFile
    simp only [Bool.not_true, Bool.false_eq_true, if_false, Bool.not_false, if_true]
    rw [processCaptures_eq_some hne]
  · intro ext filePath basename hasParser parseOk captures fileLines minLines hmd hne
    unfold parseSourceCodeDefinitionsForFile
    have hext : extensions.contains (jsToLowerCase ext) = true := by
      rcases hmd with h | h <;> rw [h] <;> decide
    rw [hext]
    simp only [Bool.not_true, Bool.false_eq_true, if_false, Bool.not_false, if_true]
    rw [if_pos hmd]
    rw [processCaptures_eq_some hne]
  · intro captures lines language minLines r hr h
    have hgood := (good_processCapturesRecords captures lines language minLines r hr).1
    rw [hgood]
    unfold lineAt
    rw [List.getD_eq_getElem?_getD, List.getElem?_eq_getElem h]
    simp [List.get_eq_getElem]

/-- C7 witness: a 5-line `.ts` file with one definition capture produces
the header plus one formatted definition line. -/
theorem c7_definitions_format_witness :
    (extensions.contains (jsToLowerCase ".ts") = true) ∧
    (¬(jsToLowerCase ".ts" = ".md" ∨ jsToLowerCase ".ts" = ".markdown")) ∧
    (processCapturesRecords [⟨"definition.function", ⟨0, 4, "", none⟩⟩]
        ["function foo()", "a", "b", "c", "end"] ((jsToLowerCase ".ts").drop 1)
        DEFAULT_MIN_COMPONENT_LINES_VALUE ≠ []) ∧
    parseSourceCodeDefinitionsForFile true ".ts" false true true "src/f.ts" "f.ts"
        [⟨"definition.function", ⟨0, 4, "", none⟩⟩]
        ["function foo()", "a", "b", "c", "end"] DEFAULT_MIN_COMPONENT_LINES_VALUE
      = some ("# " ++ "f.ts" ++ "\n" ++
          renderRecords (processCapturesRecords
            [⟨"definition.function", ⟨0, 4, "", none⟩⟩]
            ["function foo()", "a", "b", "c", "end"] ((jsToLowerCase ".ts").drop 1)
            DEFAULT_MIN_COMPONENT_LINES_VALUE)) :=
  ⟨by decide, by decide, by decide,
   c7_definitions_format.1 ".ts" "src/f.ts" "f.ts"
     [⟨"definition.function", ⟨0, 4, "", none⟩⟩]
     ["function foo()", "a", "b", "c", "end"] DEFAULT_MIN_COMPONENT_LINES_VALUE
     (by decide) (by decide) (by decide)⟩

/-- C8: an existing file whose lowercased extension is not in the supported
list yields `undefined` (no definitions and no error value). -/
theorem c8_unsupported_extension (ext : String) (ignored hasParser parseOk : Bool)
    (filePath basename : String) (captures : List TSCapture) (fileLines : List String)
    (minLines : Nat) (h : extensions.contains (jsToLowerCase ext) = false) :
    parseSourceCodeDefinitionsForFile true ext ignored hasParser parseOk filePath
      basename captures fileLines minLines = none := by
  unfold parseSourceCodeDefinitionsForFile
  rw [h]
  simp

/-- C8 witness: a `.xyz` file exists but is unsupported, so the result is
`none`. -/
theorem c8_unsupported_extension_witness :
    (extensions.contains (jsToLowerCase ".xyz") = false) ∧
    parseSourceCodeDefinitionsForFile true ".xyz" false true true "a/b.xyz" "b.xyz"
      [] [] DEFAULT_MIN_COMPONENT_LINES_VALUE = none :=
  ⟨by decide,
   c8_unsupported_extension ".xyz" false true true "a/b.xyz" "b.xyz" [] []
     DEFAULT_MIN_COMPONENT_LINES_VALUE (by decide)⟩

/-- C10: for a path that does not exist (or is inaccessible),
`parseSourceCodeDefinitionsForFile` returns the fixed message string —
not `undefined` — and that string is not in the `# basename` definitions
format (it does not start with `# `). -/
theorem c10_missing_file (ext : String) (ignored hasParser parseOk : Bool)
    (filePath basename : String) (captures : List TSCapture) (fileLines : List String)
    (minLines : Nat) :
    parseSourceCodeDefinitionsForFile false ext ignored hasParser parseOk filePath
        basename captures fileLines minLines = some fileNotFoundMessage ∧
      "# ".toList.isPrefixOf fileNotFoundMessage.toList = false :=
  ⟨rfl, by decide⟩

/-! ## Claim theorems: directory-level listing -/

theorem foldl_congrOn {α β : Type} (l : List α) (F G : β → α → β)
    (h : ∀ b a, a ∈ l → F b a = G b a) : ∀ acc, l.foldl F acc = l.foldl G acc := by
  induction l with
  | nil => intro _; rfl
  | cons x l ih =>
    intro acc
    rw [List.foldl_cons, List.foldl_cons, h acc x (List.mem_cons_self _ _)]
    exact ih (fun b a ha => h b a (List.mem_cons_of_mem _ ha)) _

/-- C9: `parseSourceCodeForDefinitionsTopLevel` parses at most the first 50
supported files: the selection has length at most 50, consists of supported
files, omits every supported file with index at least 50 (for duplicate-free
listings), and the directory result does not depend on the parse results of
files outside the selection. -/
theorem c9_first_fifty_files (allFiles : List String) (extnameOf : String → String) :
    ((separateFiles allFiles extnameOf).1.length ≤ 50)
    ∧ (∀ f ∈ (separateFiles allFiles extnameOf).1, f ∈ supportedOf allFiles extnameOf)
    ∧ ((supportedOf allFiles extnameOf).Nodup →
        ∀ i (hi : i < (supportedOf allFiles extnameOf).length), 50 ≤ i →
          (supportedOf allFiles extnameOf).get ⟨i, hi⟩ ∉ (separateFiles allFiles extnameOf).1)
    ∧ (∀ (dirExists : Bool) (shouldIgnore : String → Bool) (relativeOf : String → String)
        (md1 ts1 md2 ts2 : String → Option String),
        (∀ f ∈ (separateFiles allFiles extnameOf).1, md1 f = md2 f ∧ ts1 f = ts2 f) →
        parseSourceCodeForDefinitionsTopLevel dirExists allFiles extnameOf shouldIgnore
            relativeOf md1 ts1
          = parseSourceCodeForDefinitionsTopLevel dirExists allFiles extnameOf shouldIgnore
            relativeOf md2 ts2) := by
  refine ⟨?_, ?_, ?_, ?_⟩
  · show ((supportedOf allFiles extnameOf).take 50).length ≤ 50
    rw [List.length_take]
    exact Nat.min_le_left _ _
  · intro f hf
    exact List.mem_of_mem_take hf
  · intro hnodup i hi h50 hmem
    obtain ⟨j, rfl⟩ : ∃ j, i = 50 + j := ⟨i - 50, by omega⟩
    have hdrop : (supportedOf allFiles extnameOf).get ⟨50 + j, hi⟩
        ∈ (supportedOf allFiles extnameOf).drop 50 := by
      have hlt : j < ((supportedOf allFiles extnameOf).drop 50).length := by
        rw [List.length_drop]
        omega
      refine List.mem_iff_get.mpr ⟨⟨j, hlt⟩, ?_⟩
      rw [List.get_eq_getElem, List.get_eq_getElem, List.getElem_drop]
    have hsplit : ((supportedOf allFiles extnameOf).take 50 ++
        (supportedOf allFiles extnameOf).drop 50).Nodup := by
      rw [List.take_append_drop]
      exact hnodup
    have hdisj := (List.nodup_append.mp hsplit).2.2
    exact hdisj hmem hdrop
  · intro dirExists shouldIgnore relativeOf md1 ts1 md2 ts2 hagree
    cases dirExists with
    | false => rfl
    | true =>
      unfold parseSourceCodeForDefinitionsTopLevel
      simp only [Bool.not_true, Bool.false_eq_true, if_false]
      have hmemchain : ∀ {p q : String → Bool} {f : String},
          f ∈ ((separateFiles allFiles extnameOf).1.filter p).filter q →
          f ∈ (separateFiles allFiles extnameOf).1 :=
        fun hf => List.mem_of_mem_filter (List.mem_of_mem_filter hf)
      rw [foldl_congrOn _
        (fun acc f => if shouldIgnore f then acc
          else appendEntry relativeOf acc f (md1 f))
        (fun acc f => if shouldIgnore f then acc
          else appendEntry relativeOf acc f (md2 f))
        (fun b f hf => by simp only [(hagree f (hmemchain hf)).1]) ""]
      rw [foldl_congrOn _
        (fun acc f => appendEntry relativeOf acc f (ts1 f))
        (fun acc f => appendEntry relativeOf acc f (ts2 f))
        (fun b f hf => by simp only [(hagree f (hmemchain hf)).2]) _]

/-- C9 witness: with 60 identically named supported files, the selection
keeps at most 50, every selected file is supported, and the result equals
itself across oracles that agree on the selection. -/
theorem c9_first_fifty_files_witness :
    ((separateFiles (List.replicate 60 "a.ts") (fun _ => ".ts")).1.length ≤ 50)
    ∧ (∀ f ∈ (separateFiles (List.replicate 60 "a.ts") (fun _ => ".ts")).1,
        f ∈ supportedOf (List.replicate 60 "a.ts") (fun _ => ".ts"))
    ∧ parseSourceCodeForDefinitionsTopLevel true (List.replicate 60 "a.ts")
        (fun _ => ".ts") (fun _ => false) (fun f => f) (fun _ => none) (fun _ => some "1--5 | x\n")
      = parseSourceCodeForDefinitionsTopLevel true (List.replicate 60 "a.ts")
        (fun _ => ".ts") (fun _ => false) (fun f => f) (fun _ => none) (fun _ => some "1--5 | x\n") :=
  ⟨(c9_first_fifty_files (List.replicate 60 "a.ts") (fun _ => ".ts")).1,
   (c9_first_fifty_files (List.replicate 60 "a.ts") (fun _ => ".ts")).2.1,
   (c9_first_fifty_files (List.replicate 60 "a.ts") (fun _ => ".ts")).2.2.2 true
     (fun _ => false) (fun f => f) (fun _ => none) (fun _ => some "1--5 | x\n")
     (fun _ => none) (fun _ => some "1--5 | x\n") (fun _ _ => ⟨rfl, rfl⟩)⟩

/-! ## Claim theorems: configuration restart controller -/

theorem hasVectorDimensionChanged_self (models : EmbeddingModels) (s : ManagerState) :
    hasVectorDimensionChanged models s s.embedderProvider s.modelId = false := by
  unfold hasVectorDimensionChanged
  rw [if_pos ⟨rfl, rfl⟩]

/-- C1: `doesConfigChangeRequireRestart` is reflexive-false — comparing the
snapshot of the current state against that same state returns false, for
every model table and every state (all values of enabled, configured,
provider, model, keys, URLs and dimension). -/
theorem c1_restart_reflexive_false (models : EmbeddingModels) (s : ManagerState) :
    doesConfigChangeRequireRestart models s (snapshotOfCurrent s) = false := by
  have hdim := hasVectorDimensionChanged_self models s
  unfold doesConfigChangeRequireRestart snapshotOfCurrent
  cases he : s.isEnabled <;> cases hc : isConfigured s <;> simp [he, hc, hdim]

/-- C4 (amended): if the feature is (or was) enabled, the two snapshots are
not both unconfigured, and the provider or the resolved model id changed,
then an unresolvable vector dimension on either side forces a restart. -/
theorem c4_dimension_unresolvable_requires_restart (models : EmbeddingModels)
    (s : ManagerState) (prev : ConfigSnapshot)
    (henabled : s.isEnabled = true ∨ prev.enabled = true)
    (hconf : prev.configured = true ∨ isConfigured s = true)
    (hchanged : prev.embedderProvider ≠ s.embedderProvider ∨
      prev.modelId.getD (models.getDefaultModelId prev.embedderProvider)
        ≠ s.modelId.getD (models.getDefaultModelId s.embedderProvider))
    (hdim : models.getModelDimension prev.embedderProvider
        (prev.modelId.getD (models.getDefaultModelId prev.embedderProvider)) = none ∨
      models.getModelDimension s.embedderProvider
        (s.modelId.getD (models.getDefaultModelId s.embedderProvider)) = none) :
    doesConfigChangeRequireRestart models s prev = true := by
  have hv : prev.embedderProvider = s.embedderProvider →
      hasVectorDimensionChanged models s prev.embedderProvider prev.modelId = true := by
    intro hpe
    unfold hasVectorDimensionChanged
    rw [if_neg]
    · rcases hdim with h | h
      · rw [h]
      · rcases hopt : models.getModelDimension prev.embedderProvider
            (prev.modelId.getD (models.getDefaultModelId prev.embedderProvider))
          with _ | d
        · rfl
        · rw [h]
    · rintro ⟨h1, h2⟩
      rcases hchanged with hc | hc
      · exact hc h1
      · exact hc h2
  by_cases hp : prev.embedderProvider = s.embedderProvider
  · have hvt := hv hp
    unfold doesConfigChangeRequireRestart
    cases hpe : prev.enabled <;> cases hpc : prev.configured <;>
      cases he : s.isEnabled <;> cases hc : isConfigured s <;>
      simp_all [hp, hvt]
  · unfold doesConfigChangeRequireRestart
    cases hpe : prev.enabled <;> cases hpc : prev.configured <;>
      cases he : s.isEnabled <;> cases hc : isConfigured s <;>
      simp_all [hp]

/-- The model table used by the C4 counterexample and witness: every
dimension lookup is unresolvable. -/
def c4Models : EmbeddingModels := ⟨fun _ => "default-model", fun _ _ => none⟩

/-- An enabled but unconfigured current state (ollama without a base URL). -/
def c4State : ManagerState where
  isEnabled := true
  embedderProvider := .ollama
  modelId := some "m"
  openAiOptions := none
  ollamaOptions := none
  openAiCompatibleOptions := none
  qdrantUrl := some "http://localhost:6333"
  qdrantApiKey := some ""

/-- An enabled but unconfigured previous snapshot with a different provider
and an unknown model. -/
def c4Prev : ConfigSnapshot where
  enabled := true
  configured := false
  embedderProvider := .openai
  modelId := some "custom"
  openAiKey := ""
  ollamaBaseUrl := ""
  openAiCompatibleBaseUrl := ""
  openAiCompatibleApiKey := ""
  openAiCompatibleModelDimension := none
  qdrantUrl := "http://localhost:6333"
  qdrantApiKey := ""

/-- C4 counterexample: both snapshots enabled, the provider changed and the
dimensions are unresolvable, yet the early both-unconfigured return yields
false — the claim as stated fails. -/
theorem c4_both_unconfigured_returns_false :
    c4State.isEnabled = true ∧
    c4Prev.embedderProvider ≠ c4State.embedderProvider ∧
    c4Models.getModelDimension c4Prev.embedderProvider
      (c4Prev.modelId.getD (c4Models.getDefaultModelId c4Prev.embedderProvider)) = none ∧
    doesConfigChangeRequireRestart c4Models c4State c4Prev = false :=
  ⟨rfl, by decide, rfl, by decide⟩

/-- An enabled and configured ollama state, for the C4 witness. -/
def c4WitnessState : ManagerState where
  isEnabled := true
  embedderProvider := .ollama
  modelId := some "m"
  openAiOptions := none
  ollamaOptions := some { apiKey := none, ollamaBaseUrl := some "http://localhost:11434" }
  openAiCompatibleOptions := none
  qdrantUrl := some "http://localhost:6333"
  qdrantApiKey := some ""

/-- A previous snapshot that was enabled and configured with a different
provider. -/
def c4WitnessPrev : ConfigSnapshot where
  enabled := true
  configured := true
  embedderProvider := .openai
  modelId := some "custom"
  openAiKey := "k"
  ollamaBaseUrl := ""
  openAiCompatibleBaseUrl := ""
  openAiCompatibleApiKey := ""
  openAiCompatibleModelDimension := none
  qdrantUrl := "http://localhost:6333"
  qdrantApiKey := ""

/-- C4 witness: with the provider changed and every dimension unresolvable,
the amended claim yields a restart on a concrete configured instance. -/
theorem c4_dimension_unresolvable_requires_restart_witness :
    (c4WitnessState.isEnabled = true ∨ c4WitnessPrev.enabled = true) ∧
    (c4WitnessPrev.configured = true ∨ isConfigured c4WitnessState = true) ∧
    (c4WitnessPrev.embedderProvider ≠ c4WitnessState.embedderProvider ∨
      c4WitnessPrev.modelId.getD (c4Models.getDefaultModelId c4WitnessPrev.embedderProvider)
        ≠ c4WitnessState.modelId.getD (c4Models.getDefaultModelId c4WitnessState.embedderProvider)) ∧
    (c4Models.getModelDimension c4WitnessPrev.embedderProvider
        (c4WitnessPrev.modelId.getD (c4Models.getDefaultModelId c4WitnessPrev.embedderProvider)) = none ∨
      c4Models.getModelDimension c4WitnessState.embedderProvider
        (c4WitnessState.modelId.getD (c4Models.getDefaultModelId c4WitnessState.embedderProvider)) = none) ∧
    doesConfigChangeRequireRestart c4Models c4WitnessState c4WitnessPrev = true :=
  ⟨Or.inl rfl, Or.inl rfl, Or.inl (by decide), Or.inl rfl,
   c4_dimension_unresolvable_requires_restart c4Models c4WitnessState c4WitnessPrev
     (Or.inl rfl) (Or.inl rfl) (Or.inl (by decide)) (Or.inl rfl)⟩

end Autodev
